import Mathlib

/-!
Shallow embedding of the core of `env-js-validator`
(file `src/core/index.ts`, class `EnvValidator`).

JavaScript runtime values stored in environment maps are modelled by `Val`
(string values, `undefined`, and an opaque non-string value used by custom
transformers).  JavaScript objects used as string-keyed maps are modelled by
association lists (`EnvMap`); object spread `\x7b...a, ...b\x7d` is modelled by
`jsSpread`, which keeps the position of keys of `a` and overwrites their
values with those of `b`, exactly as the JS spread does.

Exceptions are modelled by `Except Thrown`; a thrown JS value is either a
`ZodError` (carrying its issue list), a plain `Error` (carrying its message),
or some other value, matching the three `instanceof` branches of
`getValidationState`.  The user-supplied handlers `onValidationError` and
`onInvalidAccess` are declared `=> never` in the source, but nothing at
runtime prevents a JS caller from supplying a handler that returns; a handler
is therefore modelled as returning a `HandlerResult`, either raising a thrown
value or returning a `Val`.

Observable side effects (how many times schema validation ran, how many times
the raw map was transformed, the arguments of every handler invocation) are
returned as explicit traces (`PTrace`, and the invocation list returned by
`validateAccess` / `proxyGet`), so that claims about "validation is not
re-run" or "the handler fires at most once" can be stated.

The ambient globals probed by `detectRuntimeEnv` (`process.env`,
`import.meta.env`, `Deno.env`, `globalThis.ENV`) are modelled by `Ambient`;
the ambient globals probed by `getCurrentEnvironment` (`Deno`, `window`,
`EdgeRuntime`) are modelled by a fixed `RuntimeEnvironment` value stored in
the resolved configuration.  The zod schema objects are modelled by their
observable interface (per-field validation producing issues with a path and a
message), which is all the engine uses; `monorepo`, `loadEnvFiles` and
`envFilePath` options are configuration data never read by the modelled
operations and are omitted.
-/

namespace EnvValidator

/-- Model of a JavaScript runtime value stored in an environment map. -/
inductive Val where
  | str : String → Val
  | undefined : Val
  | num : Int → Val
deriving DecidableEq, Repr

/-- A JavaScript object used as a string-keyed map, in insertion order. -/
abbrev EnvMap := List (String × Val)

/-- Property lookup on a JS object: the value at the first matching key. -/
def lookupEnv (m : EnvMap) (k : String) : Option Val :=
  (m.find? (fun p => p.1 == k)).map (fun p => p.2)

/-- The entry a key of the left operand of a spread contributes: the right
operand entry of the same key when there is one, the original entry
otherwise. -/
def spreadEntry (b : EnvMap) (p : String × Val) : String × Val :=
  match b.find? (fun q => q.1 == p.1) with
  | some q => q
  | none => p

/-- Model of the JS object spread `\x7b...a, ...b\x7d`: keys of `a` keep their
position but take the value from `b` when `b` also has the key; keys only in
`b` are appended in order. -/
def jsSpread (a b : EnvMap) : EnvMap :=
  a.map (spreadEntry b) ++ b.filter (fun q => !(a.any (fun p => p.1 == q.1)))

/-- The four ambient environment sources probed by `detectRuntimeEnv`; `none`
models an absent global (for example no `Deno` object). -/
structure Ambient where
  processEnv : Option EnvMap
  importMetaEnv : Option EnvMap
  denoEnv : Option EnvMap
  globalENV : Option EnvMap

/-- Embedding of `EnvValidator.detectRuntimeEnv`: successive object spreads of
the present sources, in source order (process, import.meta, Deno, ENV). -/
def detectRuntimeEnv (a : Ambient) : EnvMap :=
  let env : EnvMap := []
  let env := match a.processEnv with | some m => jsSpread env m | none => env
  let env := match a.importMetaEnv with | some m => jsSpread env m | none => env
  let env := match a.denoEnv with | some m => jsSpread env m | none => env
  let env := match a.globalENV with | some m => jsSpread env m | none => env
  env

/-- The `RuntimeEnvironment` union type of the source. -/
inductive RuntimeEnvironment where
  | node | edge | browser | deno
deriving DecidableEq, Repr

/-- The string literal of each `RuntimeEnvironment` member. -/
def RuntimeEnvironment.toStr : RuntimeEnvironment → String
  | .node => "node"
  | .edge => "edge"
  | .browser => "browser"
  | .deno => "deno"

/-- Model of the JS `String.prototype.startsWith`. -/
def strStartsWith (s p : String) : Bool :=
  p.data.isPrefixOf s.data

/-- One issue of a `ZodError`: a path and a message. -/
structure ZIssue where
  path : List String
  message : String
deriving DecidableEq, Repr

/-- A thrown JS value, distinguished the way `getValidationState` does:
a `ZodError`, any other `Error`, or a non-`Error` value. -/
inductive Thrown where
  | zodError (issues : List ZIssue)
  | error (message : String)
  | other
deriving DecidableEq, Repr

/-- Observable behaviour of one invocation of a user-supplied handler: it
either raises a thrown value or returns a value (the source types handlers as
`=> never`, but a plain JS caller can pass a returning function). -/
inductive HandlerResult where
  | raises (t : Thrown)
  | returns (v : Val)
deriving DecidableEq, Repr

/-- Observable interface of one field schema of a zod object schema: the field
name, whether a given value is accepted, and the issue message produced when
it is rejected. -/
structure Field where
  name : String
  check : Val → Bool
  errMsg : Val → String

/-- The value a zod object schema sees for a field: the property value, or
`undefined` when the key is absent. -/
def fieldValue (env : EnvMap) (f : Field) : Val :=
  (lookupEnv env f.name).getD .undefined

/-- Observable model of `schema.safeParse(env)` for a zod object schema with
the given fields: collect one issue per rejected field (in field order);
succeed with the map of declared fields (unknown keys stripped) iff there is
no issue. -/
def safeParse (fields : List Field) (env : EnvMap) : Except (List ZIssue) EnvMap :=
  let issues := fields.filterMap (fun f =>
    if f.check (fieldValue env f) then none
    else some ⟨[f.name], f.errMsg (fieldValue env f)⟩)
  if issues.isEmpty then .ok (fields.map (fun f => (f.name, fieldValue env f)))
  else .error issues

/-- Model of `A.merge(B)` on zod object schemas: the shape spread
`\x7b...A.shape, ...B.shape\x7d`, so a field of `B` overwrites a same-named
field of `A` in place and new fields of `B` are appended. -/
def mergeFields (a b : List Field) : List Field :=
  a.map (fun f =>
    match b.find? (fun g => g.name == f.name) with
    | some g => g
    | none => f)
  ++ b.filter (fun g => !(a.any (fun f => f.name == g.name)))

/-- The `EnvTransformer` type of the source: `(value, key) => value`. -/
abbrev Transformer := Val → String → Val

/-- One entry of the `FRAMEWORK_CONFIGS` registry (fields read by the core;
`envFilePath` and `monorepo` are never read by the modelled operations). -/
structure FrameworkConfig where
  clientPrefix : String
  runtimeEnvSource : String
  allowedEnvironments : Option (List RuntimeEnvironment)
  defaultValidation : Option Bool

/-- Embedding of the `FRAMEWORK_CONFIGS` record as lookup by framework name;
`custom` has no entry, as in the source. -/
def FRAMEWORK_CONFIGS : String → Option FrameworkConfig := fun name =>
  if name = "next" then some ⟨"NEXT_PUBLIC_", "process.env", some [.node, .edge], none⟩
  else if name = "remix" then some ⟨"PUBLIC_", "process.env", some [.node, .browser], none⟩
  else if name = "react" then some ⟨"REACT_APP_", "process.env", some [.browser], none⟩
  else if name = "vue" then some ⟨"VITE_", "import.meta.env", some [.browser], none⟩
  else if name = "solid" then some ⟨"VITE_", "import.meta.env", some [.browser], none⟩
  else if name = "nx" then some ⟨"NX_PUBLIC_", "process.env", some [.node, .browser], some true⟩
  else if name = "nuxt" then some ⟨"NUXT_PUBLIC_", "process.env", some [.node, .browser], some true⟩
  else none

/-- Caller-supplied `EnvValidatorOptions` (optional fields are `Option`). -/
structure Options where
  server : List Field := []
  client : List Field := []
  shared : List Field := []
  clientPrefix : Option String := none
  runtimeEnv : Option EnvMap := none
  framework : Option String := none
  emptyStringAsUndefined : Option Bool := none
  allowedEnvironments : Option (List RuntimeEnvironment) := none
  onValidationError : Option (List ZIssue → HandlerResult) := none
  onInvalidAccess : Option (String → String → HandlerResult) := none
  transformers : Option (List (String × Transformer)) := none

/-- The resolved `this.options` of a constructed validator, together with the
ambient runtime context returned by `getCurrentEnvironment` (a pure probe of
process-wide globals, hence constant for one validator). -/
structure Cfg where
  server : List Field
  client : List Field
  shared : List Field
  clientPrefix : String
  framework : String
  emptyStringAsUndefined : Bool
  allowedEnvironments : List RuntimeEnvironment
  onValidationError : List ZIssue → HandlerResult
  onInvalidAccess : String → String → HandlerResult
  transformers : List (String × Transformer)
  currentEnv : RuntimeEnvironment

/-- One entry of the `errors` list of a `ValidationResult`. -/
structure VErr where
  path : List String
  message : String
deriving DecidableEq, Repr

/-- The `ValidationResult` interface of the source. -/
structure ValidationResult where
  success : Bool
  errors : Option (List VErr) := none
deriving DecidableEq, Repr

/-- The mutable instance state of a validator: `this.options.runtimeEnv`
(reassigned by `setRuntimeEnv`) and `this.validationResult`. -/
structure VState where
  runtimeEnv : EnvMap
  validationResult : Option ValidationResult
deriving DecidableEq, Repr

/-- Embedding of `defaultValidationError` (logs, then always throws). -/
def defaultValidationError : List ZIssue → HandlerResult :=
  fun _ => .raises (.error "Environment validation failed.")

/-- Embedding of `defaultInvalidAccess` (always throws). -/
def defaultInvalidAccess : String → String → HandlerResult :=
  fun v c =>
    .raises (.error ("❌ Attempted to access " ++ c ++ " environment variable \""
      ++ v ++ "\" in invalid context"))

/-- Embedding of the option-resolution part of the constructor (the `??`
chains building `this.options`). -/
def resolveCfg (currentEnv : RuntimeEnvironment) (opts : Options) : Cfg :=
  let frameworkConfig := opts.framework.bind FRAMEWORK_CONFIGS
  { server := opts.server
    client := opts.client
    shared := opts.shared
    clientPrefix := opts.clientPrefix.getD
      ((frameworkConfig.map (fun c => c.clientPrefix)).getD "")
    framework := opts.framework.getD "custom"
    emptyStringAsUndefined := opts.emptyStringAsUndefined.getD true
    allowedEnvironments := opts.allowedEnvironments.getD
      ((frameworkConfig.bind (fun c => c.allowedEnvironments)).getD
        [.node, .edge, .browser, .deno])
    onValidationError := opts.onValidationError.getD defaultValidationError
    onInvalidAccess := opts.onInvalidAccess.getD defaultInvalidAccess
    transformers := opts.transformers.getD []
    currentEnv := currentEnv }

/-- The initial mutable state built by the constructor:
`runtimeEnv := options.runtimeEnv ?? this.detectRuntimeEnv()` and
`validationResult := null`. -/
def initState (a : Ambient) (opts : Options) : VState :=
  { runtimeEnv := opts.runtimeEnv.getD (detectRuntimeEnv a)
    validationResult := none }

/-- The error message thrown by `validateClientPrefix`. -/
def prefixErrorMsg (key px : String) : String :=
  "Client environment variable \"" ++ key ++ "\" must be prefixed with \""
    ++ px ++ "\""

/-- Embedding of `EnvValidator.validateClientPrefix`: checked only when the
resolved prefix is truthy (non-empty); throws at the first client key that
does not start with the prefix. -/
def validateClientPrefix (cfg : Cfg) : Except Thrown Unit :=
  if cfg.clientPrefix = "" then .ok ()
  else
    match cfg.client.find? (fun f => !(strStartsWith f.name cfg.clientPrefix)) with
    | some f => .error (.error (prefixErrorMsg f.name cfg.clientPrefix))
    | none => .ok ()

/-- Embedding of the constructor: resolve the options (collecting ambient
sources when `runtimeEnv` is not supplied), then run the prefix check. -/
def construct (a : Ambient) (currentEnv : RuntimeEnvironment) (opts : Options) :
    Except Thrown (Cfg × VState) :=
  let cfg := resolveCfg currentEnv opts
  let st := initState a opts
  match validateClientPrefix cfg with
  | .error t => .error t
  | .ok _ => .ok (cfg, st)

/-- First pass of `transformEnv`: when `emptyStringAsUndefined` is set, every
value strictly equal to the empty string becomes `undefined`. -/
def applyEmptyString (flag : Bool) (env : EnvMap) : EnvMap :=
  if flag then
    env.map (fun p => (p.1, if p.2 == Val.str "" then Val.undefined else p.2))
  else env

/-- Second pass of `transformEnv`: every key registered in `transformers`
has its (possibly already rewritten) value replaced by the transformer
applied to `(value, key)`. -/
def applyTransformers (ts : List (String × Transformer)) (env : EnvMap) : EnvMap :=
  env.map (fun p =>
    (p.1, match ts.find? (fun t => t.1 == p.1) with
          | some t => t.2 p.2 p.1
          | none => p.2))

/-- Embedding of `EnvValidator.transformEnv`: the empty-string pass followed
by the transformer pass. -/
def transformEnv (cfg : Cfg) (env : EnvMap) : EnvMap :=
  applyTransformers cfg.transformers (applyEmptyString cfg.emptyStringAsUndefined env)

/-- Lookup of the registered transformer of a key (`key in transformers`). -/
def lookupTransformer (cfg : Cfg) (k : String) : Option Transformer :=
  (cfg.transformers.find? (fun t => t.1 == k)).map (fun t => t.2)

/-- Observable side effects of one `parse` (or `setRuntimeEnv`) call: how many
times `safeParse` ran, how many times `transformEnv` ran, and the argument of
every `onValidationError` invocation. -/
structure PTrace where
  validationRuns : Nat
  transformRuns : Nat
  errorHandlerCalls : List (List ZIssue)
deriving DecidableEq, Repr

/-- What a `parse` call can return normally: the proxied view over the
validated data, or (when `onValidationError` returns instead of raising) the
value returned by the handler. -/
inductive ParseReturn where
  | view (data : EnvMap)
  | handlerValue (v : Val)
deriving DecidableEq, Repr

/-- The message of the error thrown when the current environment is not in
`allowedEnvironments`. -/
def policyErrorMsg (env : RuntimeEnvironment) (allowed : List RuntimeEnvironment) : String :=
  "Environment \"" ++ env.toStr ++ "\" is not allowed. Allowed environments: "
    ++ String.intercalate ", " (allowed.map RuntimeEnvironment.toStr)

/-- The schema chosen by `parse`: `server.merge(client).merge(shared)` off the
browser, `client.merge(shared)` in the browser. -/
def parseSchema (cfg : Cfg) : List Field :=
  if cfg.currentEnv != .browser then
    mergeFields (mergeFields cfg.server cfg.client) cfg.shared
  else mergeFields cfg.client cfg.shared

/-- Embedding of `EnvValidator.parse`: reject a disallowed environment before
anything else; otherwise transform the stored raw map, run the merged schema,
route a failure through `onValidationError` (returning its value when it
returns), and on success memoize `\x7bsuccess: true\x7d` and return the view. -/
def parse (cfg : Cfg) (st : VState) :
    Except Thrown ParseReturn × VState × PTrace :=
  let currentEnv := cfg.currentEnv
  if !(cfg.allowedEnvironments.contains currentEnv) then
    (.error (.error (policyErrorMsg currentEnv cfg.allowedEnvironments)), st, ⟨0, 0, []⟩)
  else
    let transformedEnv := transformEnv cfg st.runtimeEnv
    match safeParse (parseSchema cfg) transformedEnv with
    | .error zerr =>
      match cfg.onValidationError zerr with
      | .raises t => (.error t, st, ⟨1, 1, [zerr]⟩)
      | .returns v => (.ok (.handlerValue v), st, ⟨1, 1, [zerr]⟩)
    | .ok data =>
      (.ok (.view data), { st with validationResult := some ⟨true, none⟩ }, ⟨1, 1, []⟩)

/-- The three `catch` branches of `getValidationState`, mapping a thrown value
to a stored failure result. -/
def captureError : Thrown → ValidationResult
  | .zodError issues =>
    ⟨false, some (issues.map (fun i => ⟨i.path, i.message⟩))⟩
  | .error msg =>
    ⟨false, some [⟨[], if msg = "" then "Unknown error occurred" else msg⟩]⟩
  | .other =>
    ⟨false, some [⟨[], "An unexpected validation error occurred"⟩]⟩

/-- Embedding of `EnvValidator.getValidationState`: when no result is
memoized, drive one `parse` inside `try/catch`, capture a thrown value into a
stored failure result, and finally return the memoized result or the
`\x7bsuccess: true, errors: []\x7d` fallback. -/
def getValidationState (cfg : Cfg) (st : VState) :
    ValidationResult × VState × PTrace :=
  match st.validationResult with
  | some r => (r, st, ⟨0, 0, []⟩)
  | none =>
    let res := parse cfg st
    match res.1 with
    | .ok _ =>
      ((res.2.1.validationResult).getD ⟨true, some []⟩, res.2.1, res.2.2)
    | .error t =>
      let vr := captureError t
      (vr, { res.2.1 with validationResult := some vr }, res.2.2)

/-- Embedding of `EnvValidator.setRuntimeEnv`: store the transformed image of
the supplied map and reset the memoized validation state; no validation runs. -/
def setRuntimeEnv (cfg : Cfg) (_st : VState) (env : EnvMap) : VState × PTrace :=
  ({ runtimeEnv := transformEnv cfg env, validationResult := none }, ⟨0, 1, []⟩)

/-- Key membership in a partial schema (`key in this.options.server` and so
on). -/
def hasKey (fields : List Field) (k : String) : Bool :=
  fields.any (fun f => f.name == k)

/-- Embedding of `EnvValidator.validateAccess`, with the list of
`onInvalidAccess` invocations (arguments `(variable, context)`) it performed.
When the handler returns instead of raising, execution simply continues. -/
def validateAccess (cfg : Cfg) (key : String) :
    Except Thrown Unit × List (String × String) :=
  let environment := cfg.currentEnv
  let isServerVar := hasKey cfg.server key
    && !(hasKey cfg.client key) && !(hasKey cfg.shared key)
  if isServerVar && (environment == .browser) then
    match cfg.onInvalidAccess key environment.toStr with
    | .raises t => (.error t, [(key, environment.toStr)])
    | .returns _ => (.ok (), [(key, environment.toStr)])
  else (.ok (), [])

/-- Embedding of the proxy `get` trap installed by `parse`: run
`validateAccess`, then (if it did not throw) return `target[prop]`. -/
def proxyGet (cfg : Cfg) (data : EnvMap) (prop : String) :
    Except Thrown Val × List (String × String) :=
  match validateAccess cfg prop with
  | (.error t, calls) => (.error t, calls)
  | (.ok _, calls) => (.ok ((lookupEnv data prop).getD .undefined), calls)

/-- Two successive reads of the same property from one parsed view.  The
proxy trap and the handlers hold no mutable state, so the second read runs
under the same configuration and target as the first. -/
def readTwice (cfg : Cfg) (data : EnvMap) (prop : String) :
    (Except Thrown Val × List (String × String))
      × (Except Thrown Val × List (String × String)) :=
  (proxyGet cfg data prop, proxyGet cfg data prop)

/-- A spread entry keeps the key of the original entry. -/
theorem spreadEntry_key (b : EnvMap) (p : String × Val) :
    (spreadEntry b p).1 = p.1 := by
  unfold spreadEntry
  cases hfb : b.find? (fun q => q.1 == p.1) with
  | none => rfl
  | some q =>
    show q.1 = p.1
    have hq := List.find?_some hfb
    exact eq_of_beq hq

/-- The value of a spread entry is the right operand value when present. -/
theorem spreadEntry_val (b : EnvMap) (p : String × Val) :
    (spreadEntry b p).2 = (lookupEnv b p.1).getD p.2 := by
  unfold spreadEntry lookupEnv
  cases hfb : b.find? (fun q => q.1 == p.1) with
  | none => rfl
  | some q => rfl

/-- Lookup of a key in one optional ambient source. -/
def srcLookup (src : Option EnvMap) (k : String) : Option Val :=
  src.bind (fun m => lookupEnv m k)

/-- A required field schema: any value other than `undefined` is accepted
(the shape of a field schema is an external capability; this is the simplest
instance, `z.string()` on present string values). -/
def fieldRequired (n : String) : Field :=
  ⟨n, fun v => v != .undefined, fun _ => "Required"⟩

/-- Ambient probe with none of the four sources present. -/
def emptyAmbient : Ambient := ⟨none, none, none, none⟩

/-- Fresh instance state with an empty raw map and no memoized result. -/
def emptyState : VState := ⟨[], none⟩

/-- An invalid-access handler that returns instead of raising (legal for a
plain JS caller, though the declared type says `never`). -/
def returningAccessHandler : String → String → HandlerResult :=
  fun _ _ => .returns .undefined

/-- A validation-error handler that returns a value instead of raising. -/
def returningValidationHandler : List ZIssue → HandlerResult :=
  fun _ => .returns (.str "handler-return")

/-- A transformer that prepends `X` to string values. -/
def prependX : Transformer :=
  fun v _ => match v with
    | .str s => .str ("X" ++ s)
    | v => v

/-- A validator in the browser context with one server-only field `S` and a
returning invalid-access handler. -/
def cfgAccessReturn : Cfg :=
  resolveCfg .browser
    { server := [fieldRequired "S"], onInvalidAccess := some returningAccessHandler }

/-- A validator in the browser context with one server-only field `S` and one
client field `C`, using the default (raising) invalid-access handler. -/
def cfgAccessDefault : Cfg :=
  resolveCfg .browser
    { server := [fieldRequired "S"], client := [fieldRequired "C"] }

/-- A validated data object holding the server field `S`. -/
def dataS : EnvMap := [("S", .str "v")]

/-- Options declaring a client field while the effective prefix is empty. -/
def optsEmptyPfx : Options := { client := [fieldRequired "FOO"] }

/-- Options with prefix `PUB_` and an unprefixed client field. -/
def optsBadPfx : Options :=
  { clientPrefix := some "PUB_", client := [fieldRequired "SOMETHING"] }

/-- The `next` preset combined with an `allowedEnvironments` override. -/
def optsNextDeno : Options :=
  { framework := some "next", allowedEnvironments := some [.deno] }

/-- A validator whose validation fails (required field absent) and whose
validation-error handler returns instead of raising. -/
def cfgValFailReturn : Cfg :=
  resolveCfg .node
    { server := [fieldRequired "MISSING_VAR"],
      onValidationError := some returningValidationHandler }

/-- A validator whose validation fails and whose default validation-error
handler raises. -/
def cfgValFailRaise : Cfg :=
  resolveCfg .node { server := [fieldRequired "MISSING_VAR"] }

/-- A validator with an empty schema (validation always succeeds). -/
def cfgEmptySchema : Cfg := resolveCfg .node {}

/-- Ambient sources where both the process environment and the Deno
environment define the key `K`. -/
def ambientPD : Ambient :=
  ⟨some [("K", .str "p")], none, some [("K", .str "d")], none⟩

/-- A validator running in the browser while only `node` is allowed. -/
def cfgPolicy : Cfg :=
  resolveCfg .browser { allowedEnvironments := some [.node] }

/-- A validator with the transformer `prependX` registered for key `K`. -/
def cfgTransform : Cfg :=
  resolveCfg .node { transformers := some [("K", prependX)] }

/-- Lookup in the spread result of the left list alone: a key of `a` keeps its
position and takes the value of `b` when `b` has the key. -/
theorem lookupEnv_spreadLeft (a b : EnvMap) (k : String) :
    lookupEnv (a.map (spreadEntry b)) k
      = (lookupEnv a k).map (fun v => (lookupEnv b k).getD v) := by
  induction a with
  | nil => rfl
  | cons p rest ih =>
    simp only [List.map_cons, lookupEnv, List.find?_cons, spreadEntry_key]
    by_cases hpk : (p.1 == k) = true
    · have hk : p.1 = k := eq_of_beq hpk
      rw [hpk]
      simp [spreadEntry_val, hk, lookupEnv]
    · simp only [Bool.not_eq_true] at hpk
      rw [hpk]
      exact ih

/-- Lookup in the filtered right part of a spread, when the left list has the
key: all entries of `b` with that key are filtered out. -/
theorem lookupEnv_spreadRight_out (a b : EnvMap) (k : String)
    (h : a.any (fun p => p.1 == k) = true) :
    lookupEnv (b.filter (fun q => !(a.any (fun p => p.1 == q.1)))) k = none := by
  induction b with
  | nil => rfl
  | cons q rest ih =>
    obtain ⟨qk, qv⟩ := q
    by_cases hqk : qk = k
    · subst hqk
      simp only [List.filter_cons]
      rw [show (!(a.any fun p => p.1 == qk)) = false by simp [h]]
      simpa using ih
    · have hne : (qk == k) = false := beq_eq_false_iff_ne.mpr hqk
      by_cases hin : a.any (fun p => p.1 == qk) = true
      · simp only [List.filter_cons]
        rw [show (!(a.any fun p => p.1 == qk)) = false by simp [hin]]
        simpa using ih
      · simp only [Bool.not_eq_true] at hin
        simp only [List.filter_cons]
        rw [show (!(a.any fun p => p.1 == qk)) = true by simp [hin]]
        simp only [if_pos, lookupEnv, List.find?_cons, hne]
        exact ih

/-- Lookup in the filtered right part of a spread, when the left list lacks
the key: the filter keeps every entry of `b` with that key. -/
theorem lookupEnv_spreadRight_keep (a b : EnvMap) (k : String)
    (h : a.any (fun p => p.1 == k) = false) :
    lookupEnv (b.filter (fun q => !(a.any (fun p => p.1 == q.1)))) k
      = lookupEnv b k := by
  induction b with
  | nil => rfl
  | cons q rest ih =>
    obtain ⟨qk, qv⟩ := q
    by_cases hqk : qk = k
    · subst hqk
      simp only [List.filter_cons]
      rw [show (!(a.any fun p => p.1 == qk)) = true by simp [h]]
      simp [lookupEnv, List.find?_cons]
    · have hne : (qk == k) = false := beq_eq_false_iff_ne.mpr hqk
      by_cases hin : a.any (fun p => p.1 == qk) = true
      · simp only [List.filter_cons]
        rw [show (!(a.any fun p => p.1 == qk)) = false by simp [hin]]
        simp only [if_neg, Bool.false_eq_true, not_false_iff]
        rw [ih]
        simp [lookupEnv, List.find?_cons, hne]
      · simp only [Bool.not_eq_true] at hin
        simp only [List.filter_cons]
        rw [show (!(a.any fun p => p.1 == qk)) = true by simp [hin]]
        simp only [if_pos, lookupEnv, List.find?_cons, hne]
        exact ih

/-- Whether a lookup succeeds coincides with `any` over the keys. -/
theorem lookupEnv_isSome_any (a : EnvMap) (k : String) :
    (lookupEnv a k).isSome = a.any (fun p => p.1 == k) := by
  induction a with
  | nil => rfl
  | cons p rest ih =>
    by_cases hpk : (p.1 == k) = true
    · simp [lookupEnv, List.find?_cons, hpk]
    · simp only [Bool.not_eq_true] at hpk
      simp only [lookupEnv, List.find?_cons, hpk, List.any_cons, Bool.false_or]
      exact ih

/-- Characterization of lookup in a JS object spread: the right operand wins
on every key it has, the left operand supplies the rest. -/
theorem lookupEnv_jsSpread (a b : EnvMap) (k : String) :
    lookupEnv (jsSpread a b) k = (lookupEnv b k).or (lookupEnv a k) := by
  have happ : lookupEnv (jsSpread a b) k
      = (lookupEnv (a.map (spreadEntry b)) k).or
        (lookupEnv (b.filter (fun q => !(a.any (fun p => p.1 == q.1)))) k) := by
    unfold jsSpread lookupEnv
    rw [List.find?_append, Option.map_or']
  rw [happ, lookupEnv_spreadLeft]
  cases hany : a.any (fun p => p.1 == k) with
  | true =>
    rw [lookupEnv_spreadRight_out a b k hany]
    have hsome : (lookupEnv a k).isSome = true := by
      rw [lookupEnv_isSome_any]; exact hany
    cases hla : lookupEnv a k with
    | none => rw [hla] at hsome; simp at hsome
    | some v =>
      cases hlb : lookupEnv b k with
      | none => simp
      | some w => simp
  | false =>
    rw [lookupEnv_spreadRight_keep a b k hany]
    have hnone : (lookupEnv a k).isSome = false := by
      rw [lookupEnv_isSome_any]; exact hany
    cases hla : lookupEnv a k with
    | none =>
      cases hlb : lookupEnv b k with
      | none => simp
      | some w => simp
    | some v => rw [hla] at hnone; simp at hnone

/-- Lookup through a key-preserving value rewrite of every entry. -/
theorem lookupEnv_mapVals (g : String → Val → Val) (env : EnvMap) (k : String) :
    lookupEnv (env.map (fun p => (p.1, g p.1 p.2))) k
      = (lookupEnv env k).map (g k) := by
  induction env with
  | nil => rfl
  | cons p rest ih =>
    obtain ⟨pk, pv⟩ := p
    simp only [List.map_cons, lookupEnv, List.find?_cons]
    by_cases hpk : (pk == k) = true
    · have hk : pk = k := eq_of_beq hpk
      subst hk
      rw [hpk]
      simp
    · simp only [Bool.not_eq_true] at hpk
      rw [hpk]
      exact ih

/-- The empty-string pass does not touch a looked-up value that is not the
empty string. -/
theorem lookupEnv_applyEmptyString_ne (flag : Bool) (env : EnvMap) (k : String)
    (v : Val) (hv : lookupEnv env k = some v) (hne : v ≠ .str "") :
    lookupEnv (applyEmptyString flag env) k = some v := by
  cases flag with
  | false => simpa [applyEmptyString] using hv
  | true =>
    have h := lookupEnv_mapVals
      (fun _ w => if w == Val.str "" then Val.undefined else w) env k
    have : lookupEnv (applyEmptyString true env) k
        = (lookupEnv env k).map (fun w => if w == Val.str "" then Val.undefined else w) := h
    rw [this, hv]
    simp [hne]

/-- Lookup after the transformer pass: the looked-up value is rewritten by the
registered transformer of the key, when there is one. -/
theorem lookupEnv_applyTransformers (ts : List (String × Transformer))
    (env : EnvMap) (k : String) :
    lookupEnv (applyTransformers ts env) k
      = (lookupEnv env k).map (fun v =>
          match ts.find? (fun t => t.1 == k) with
          | some t => t.2 v k
          | none => v) :=
  lookupEnv_mapVals
    (fun kk vv =>
      match ts.find? (fun t => t.1 == kk) with
      | some t => t.2 vv kk
      | none => vv) env k

/-- One `transformEnv` application, seen at a key with a registered
transformer and a present non-empty-string raw value: the result holds the
transformer applied once to that value. -/
theorem lookupEnv_transformEnv_of (cfg : Cfg) (env : EnvMap) (k : String)
    (f : Transformer) (v : Val)
    (hf : lookupTransformer cfg k = some f)
    (hv : lookupEnv env k = some v) (hne : v ≠ .str "") :
    lookupEnv (transformEnv cfg env) k = some (f v k) := by
  have h1 : lookupEnv (applyEmptyString cfg.emptyStringAsUndefined env) k = some v :=
    lookupEnv_applyEmptyString_ne cfg.emptyStringAsUndefined env k v hv hne
  unfold transformEnv
  rw [lookupEnv_applyTransformers, h1]
  unfold lookupTransformer at hf
  cases hfind : cfg.transformers.find? (fun t => t.1 == k) with
  | none => rw [hfind] at hf; simp at hf
  | some t =>
    rw [hfind] at hf
    have hft : t.2 = f := Option.some.inj hf
    simp [hft]

/-- Lookup in the empty object. -/
theorem lookupEnv_nil (k : String) : lookupEnv [] k = none := rfl

/-- Characterization of the collected ambient map: the value of a key is that
of the most precedent source defining it, in the order
`ENV > Deno.env > import.meta.env > process.env`. -/
theorem lookupEnv_detectRuntimeEnv (a : Ambient) (k : String) :
    lookupEnv (detectRuntimeEnv a) k
      = ((srcLookup a.globalENV k).or ((srcLookup a.denoEnv k).or
          ((srcLookup a.importMetaEnv k).or (srcLookup a.processEnv k)))) := by
  obtain ⟨p, i, d, g⟩ := a
  cases p <;> cases i <;> cases d <;> cases g <;>
    simp [detectRuntimeEnv, srcLookup, lookupEnv_jsSpread, lookupEnv_nil,
      Option.or_none, Option.or_assoc]

/-- Reading a server-only key in the browser context always runs the
invalid-access handler and records exactly one invocation with arguments
`(key, "browser")`. -/
theorem validateAccess_server_browser (cfg : Cfg) (k : String)
    (hs : hasKey cfg.server k = true) (hc : hasKey cfg.client k = false)
    (hsh : hasKey cfg.shared k = false) (hb : cfg.currentEnv = .browser) :
    validateAccess cfg k
      = (match cfg.onInvalidAccess k "browser" with
         | .raises t => (.error t, [(k, "browser")])
         | .returns _ => (.ok (), [(k, "browser")])) := by
  simp only [validateAccess, hs, hc, hsh, hb]
  rfl

/-- Reading a key that is declared in the client or shared schema never runs
the invalid-access handler, whatever the current context. -/
theorem validateAccess_client_or_shared (cfg : Cfg) (k : String)
    (h : hasKey cfg.client k = true ∨ hasKey cfg.shared k = true) :
    validateAccess cfg k = (.ok (), []) := by
  rcases h with h | h <;>
    simp [validateAccess, h]

/-- Claim C1 (corrected), main theorem: a field declared only in the server
partial schema, read in a browser context, invokes the invalid-access handler
with `(fieldName, "browser")`; when the handler raises, the read raises that
error, and when the handler returns, the read returns the underlying value
(there is no generic access-denied fallback).  A field declared in the client
or shared partial schema is read without any handler invocation in every
context. -/
theorem C1_tier_access (cfg : Cfg) (data : EnvMap) (k : String) :
    (hasKey cfg.server k = true → hasKey cfg.client k = false →
      hasKey cfg.shared k = false → cfg.currentEnv = .browser →
      (proxyGet cfg data k).2 = [(k, "browser")] ∧
      (∀ t, cfg.onInvalidAccess k "browser" = .raises t →
        (proxyGet cfg data k).1 = .error t) ∧
      (∀ v, cfg.onInvalidAccess k "browser" = .returns v →
        (proxyGet cfg data k).1 = .ok ((lookupEnv data k).getD .undefined))) ∧
    ((hasKey cfg.client k = true ∨ hasKey cfg.shared k = true) →
      (proxyGet cfg data k).1 = .ok ((lookupEnv data k).getD .undefined) ∧
      (proxyGet cfg data k).2 = []) := by
  constructor
  · intro hs hc hsh hb
    have hva := validateAccess_server_browser cfg k hs hc hsh hb
    refine ⟨?_, ?_, ?_⟩
    · unfold proxyGet
      rw [hva]
      cases cfg.onInvalidAccess k "browser" <;> rfl
    · intro t ht
      unfold proxyGet
      rw [hva, ht]
    · intro v hv
      unfold proxyGet
      rw [hva, hv]
  · intro h
    have hva := validateAccess_client_or_shared cfg k h
    unfold proxyGet
    rw [hva]
    exact ⟨rfl, rfl⟩

/-- Claim C1, counterexample to the claim as stated: with an invalid-access
handler that returns, reading the server-only field `S` from the browser
context invokes the handler and then silently returns the underlying value. -/
theorem C1_counterexample :
    (proxyGet cfgAccessReturn dataS "S").2 = [("S", "browser")] ∧
    (proxyGet cfgAccessReturn dataS "S").1 = .ok (.str "v") :=
  ⟨rfl, rfl⟩

/-- Claim C1, witness: with the default raising handler, reading `S` from the
browser raises, and reading the client field `C` succeeds. -/
theorem C1_tier_access_witness :
    (proxyGet cfgAccessDefault dataS "S").1
      = .error (.error ("❌ Attempted to access browser environment variable \"S\" in invalid context")) ∧
    (proxyGet cfgAccessDefault dataS "C").1 = .ok ((lookupEnv dataS "C").getD .undefined) := by
  have h1 := C1_tier_access cfgAccessDefault dataS "S"
  have h2 := C1_tier_access cfgAccessDefault dataS "C"
  exact ⟨(h1.1 rfl rfl rfl rfl).2.1 _ rfl, (h2.2 (Or.inl rfl)).1⟩

/-- Claim C2 (corrected), main theorem: with an empty effective prefix,
construction performs no prefix check and succeeds however the client fields
are named; with a non-empty effective prefix, construction fails iff some
client field name does not start with the prefix, and the failure names the
first offending field and the expected prefix. -/
theorem C2_prefix_check (a : Ambient) (e : RuntimeEnvironment) (opts : Options) :
    ((resolveCfg e opts).clientPrefix = "" → (construct a e opts).isOk = true) ∧
    ((resolveCfg e opts).clientPrefix ≠ "" →
      ((construct a e opts).isOk = false ↔
        ∃ f ∈ opts.client,
          strStartsWith f.name (resolveCfg e opts).clientPrefix = false) ∧
      (∀ f, opts.client.find?
          (fun g => !(strStartsWith g.name (resolveCfg e opts).clientPrefix)) = some f →
        construct a e opts
          = .error (.error (prefixErrorMsg f.name (resolveCfg e opts).clientPrefix)))) := by
  have hcl : (resolveCfg e opts).client = opts.client := rfl
  constructor
  · intro h
    simp only [construct, validateClientPrefix, h, if_pos]
    rfl
  · intro h
    constructor
    · cases hfind : opts.client.find?
          (fun g => !(strStartsWith g.name (resolveCfg e opts).clientPrefix)) with
      | none =>
        have hok : (construct a e opts).isOk = true := by
          simp only [construct, validateClientPrefix, hcl, h, if_neg, hfind]
          rfl
        rw [hok]
        simp only [Bool.true_eq_false, false_iff]
        rintro ⟨f, hf, hnf⟩
        have hnot := List.find?_eq_none.mp hfind f hf
        simp only [Bool.not_eq_true] at hnot
        simp [hnf] at hnot
      | some f =>
        have herr : construct a e opts
            = .error (.error (prefixErrorMsg f.name (resolveCfg e opts).clientPrefix)) := by
          simp only [construct, validateClientPrefix, hcl, h, if_neg, hfind]
          rfl
        rw [herr]
        constructor
        · intro _
          refine ⟨f, List.mem_of_find?_eq_some hfind, ?_⟩
          have hp := List.find?_some hfind
          simpa using hp
        · intro _
          rfl
    · intro f hfind
      simp only [construct, validateClientPrefix, hcl, h, if_neg, hfind]
      rfl

/-- Claim C2, counterexample to the claim as stated: a client field is
declared, the effective prefix is empty, and construction succeeds. -/
theorem C2_counterexample :
    optsEmptyPfx.client.length = 1 ∧
    (resolveCfg RuntimeEnvironment.node optsEmptyPfx).clientPrefix = "" ∧
    (construct emptyAmbient .node optsEmptyPfx).isOk = true :=
  ⟨rfl, rfl, rfl⟩

/-- Claim C2, witness: prefix `PUB_` with unprefixed client field
`SOMETHING` fails construction with the error naming field and prefix. -/
theorem C2_prefix_check_witness :
    construct emptyAmbient .node optsBadPfx
      = .error (.error (prefixErrorMsg "SOMETHING" "PUB_")) := by
  have h := C2_prefix_check emptyAmbient .node optsBadPfx
  exact (h.2 (by decide)).2 (fieldRequired "SOMETHING") rfl

/-- Claim C3 (code bug): combining the `next` preset (default allowed
contexts `[node, edge]`) with the override `[deno]` resolves to `[deno]`
alone — the override replaces the preset default instead of being unioned
with it, contradicting the repository test
`should merge allowedEnvironments when overriding`. -/
theorem C3_override_replaces_preset :
    (resolveCfg .node optsNextDeno).allowedEnvironments = [.deno] ∧
    ((FRAMEWORK_CONFIGS "next").bind (fun c => c.allowedEnvironments))
      = some [.node, .edge] ∧
    RuntimeEnvironment.node ∉ (resolveCfg .node optsNextDeno).allowedEnvironments ∧
    RuntimeEnvironment.edge ∉ (resolveCfg .node optsNextDeno).allowedEnvironments := by
  refine ⟨rfl, rfl, ?_, ?_⟩ <;> decide

/-- Claim C4 (corrected), main theorem: two reads of the same field from one
view return the same outcome, but nothing is cached: for a server-only field
in the browser context the invalid-access handler is invoked once per read,
hence twice over the two reads. -/
theorem C4_no_read_cache (cfg : Cfg) (data : EnvMap) (k : String) :
    (readTwice cfg data k).1 = (readTwice cfg data k).2 ∧
    (hasKey cfg.server k = true → hasKey cfg.client k = false →
      hasKey cfg.shared k = false → cfg.currentEnv = .browser →
      (readTwice cfg data k).1.2 = [(k, "browser")] ∧
      (readTwice cfg data k).2.2 = [(k, "browser")]) := by
  refine ⟨rfl, ?_⟩
  intro hs hc hsh hb
  have hva := validateAccess_server_browser cfg k hs hc hsh hb
  have hcalls : (proxyGet cfg data k).2 = [(k, "browser")] := by
    unfold proxyGet
    rw [hva]
    cases cfg.onInvalidAccess k "browser" <;> rfl
  exact ⟨hcalls, hcalls⟩

/-- Claim C4, counterexample to the claim as stated: over two reads of the
server-only field `S` from the browser with a returning handler, both reads
return the same value, yet the access-check side effect (the handler
invocation) is observed twice, not at most once. -/
theorem C4_counterexample :
    (readTwice cfgAccessReturn dataS "S").1 = (readTwice cfgAccessReturn dataS "S").2 ∧
    ((readTwice cfgAccessReturn dataS "S").1.2
        ++ (readTwice cfgAccessReturn dataS "S").2.2)
      = [("S", "browser"), ("S", "browser")] ∧
    ¬(((readTwice cfgAccessReturn dataS "S").1.2
        ++ (readTwice cfgAccessReturn dataS "S").2.2).length ≤ 1) := by
  refine ⟨rfl, rfl, ?_⟩
  intro hcontra
  rw [show ((readTwice cfgAccessReturn dataS "S").1.2
      ++ (readTwice cfgAccessReturn dataS "S").2.2).length = 2 from rfl] at hcontra
  omega

/-- Claim C4, witness: with the default raising handler the handler still
fires once per read of `S` from the browser. -/
theorem C4_no_read_cache_witness :
    (readTwice cfgAccessDefault dataS "S").1.2 = [("S", "browser")] ∧
    (readTwice cfgAccessDefault dataS "S").2.2 = [("S", "browser")] := by
  have h := C4_no_read_cache cfgAccessDefault dataS "S"
  exact h.2 rfl rfl rfl rfl

/-- The allowed-environments guard of `parse` passes when the current context
is a member of the allowed list. -/
theorem contains_currentEnv_of_mem (cfg : Cfg)
    (h : cfg.currentEnv ∈ cfg.allowedEnvironments) :
    cfg.allowedEnvironments.contains cfg.currentEnv = true :=
  List.elem_eq_true_of_mem h

/-- The allowed-environments guard of `parse` fails when the current context
is not a member of the allowed list. -/
theorem contains_currentEnv_of_not_mem (cfg : Cfg)
    (h : cfg.currentEnv ∉ cfg.allowedEnvironments) :
    cfg.allowedEnvironments.contains cfg.currentEnv = false := by
  cases hcc : cfg.allowedEnvironments.contains cfg.currentEnv with
  | false => rfl
  | true => exact absurd (List.elem_iff.mp hcc) h

/-- Claim C5 (corrected), main theorem: when schema validation fails in an
allowed context, `parse` invokes the validation-error handler exactly once
with the structured error; if the handler raises, `parse` propagates that
error; if the handler returns a value, `parse` returns that value normally —
no generic validation-failure error is raised by `parse` itself.  The
memoized state is left untouched on this path. -/
theorem C5_validation_failure_routing (cfg : Cfg) (st : VState)
    (zerr : List ZIssue)
    (henv : cfg.currentEnv ∈ cfg.allowedEnvironments)
    (hfail : safeParse (parseSchema cfg) (transformEnv cfg st.runtimeEnv) = .error zerr) :
    (parse cfg st).2.2.errorHandlerCalls = [zerr] ∧
    (∀ t, cfg.onValidationError zerr = .raises t → (parse cfg st).1 = .error t) ∧
    (∀ v, cfg.onValidationError zerr = .returns v →
      (parse cfg st).1 = .ok (.handlerValue v)) ∧
    (parse cfg st).2.1 = st := by
  have hc := contains_currentEnv_of_mem cfg henv
  refine ⟨?_, ?_, ?_, ?_⟩
  · simp only [parse, hc, Bool.not_true, Bool.false_eq_true, if_false, hfail]
    cases cfg.onValidationError zerr <;> rfl
  · intro t ht
    simp only [parse, hc, Bool.not_true, Bool.false_eq_true, if_false, hfail, ht]
  · intro v hv
    simp only [parse, hc, Bool.not_true, Bool.false_eq_true, if_false, hfail, hv]
  · simp only [parse, hc, Bool.not_true, Bool.false_eq_true, if_false, hfail]
    cases cfg.onValidationError zerr <;> rfl

/-- Claim C5, counterexample to the claim as stated: with a returning
validation-error handler, validation fails, the handler is invoked, and
`parse` returns the handler value normally instead of raising. -/
theorem C5_counterexample :
    (parse cfgValFailReturn emptyState).1 = .ok (.handlerValue (.str "handler-return")) ∧
    (parse cfgValFailReturn emptyState).2.2.errorHandlerCalls
      = [[⟨["MISSING_VAR"], "Required"⟩]] :=
  ⟨rfl, rfl⟩

/-- Claim C5, witness: with the default raising handler, `parse` raises the
generic failure error after invoking the handler once. -/
theorem C5_validation_failure_routing_witness :
    (parse cfgValFailRaise emptyState).1 = .error (.error "Environment validation failed.") ∧
    (parse cfgValFailRaise emptyState).2.2.errorHandlerCalls
      = [[⟨["MISSING_VAR"], "Required"⟩]] := by
  have h := C5_validation_failure_routing cfgValFailRaise emptyState
    [⟨["MISSING_VAR"], "Required"⟩] (by decide) rfl
  exact ⟨h.2.1 _ rfl, h.1⟩

/-- Claim C6 (corrected), main theorem: a memoized result makes
`getValidationState` return it with no validation run and no state change;
`setRuntimeEnv` stores the transformed image of the supplied map and clears
the memoized result while running no validation; but `parse` itself re-runs
schema validation on every call even when a result is already memoized. -/
theorem C6_memoization (cfg : Cfg) (st : VState) (env : EnvMap) :
    (∀ r, st.validationResult = some r →
      getValidationState cfg st = (r, st, ⟨0, 0, []⟩)) ∧
    setRuntimeEnv cfg st env
      = ({ runtimeEnv := transformEnv cfg env, validationResult := none }, ⟨0, 1, []⟩) ∧
    (∀ r, st.validationResult = some r → cfg.currentEnv ∈ cfg.allowedEnvironments →
      (parse cfg st).2.2.validationRuns = 1) := by
  refine ⟨?_, rfl, ?_⟩
  · intro r hr
    simp [getValidationState, hr]
  · intro r _ henv
    have hc := contains_currentEnv_of_mem cfg henv
    simp only [parse, hc, Bool.not_true, Bool.false_eq_true, if_false]
    split
    · split <;> rfl
    · rfl

/-- Claim C6, counterexample to the claim as stated: after a successful
`parse` has memoized a success outcome, a second `parse` call still runs
schema validation (one validation run, not zero). -/
theorem C6_counterexample :
    (parse cfgEmptySchema emptyState).2.1.validationResult = some ⟨true, none⟩ ∧
    (parse cfgEmptySchema (parse cfgEmptySchema emptyState).2.1).2.2.validationRuns = 1 ∧
    ¬((parse cfgEmptySchema (parse cfgEmptySchema emptyState).2.1).2.2.validationRuns = 0) := by
  refine ⟨rfl, rfl, ?_⟩
  intro hcontra
  rw [show (parse cfgEmptySchema (parse cfgEmptySchema emptyState).2.1).2.2.validationRuns
      = 1 from rfl] at hcontra
  omega

/-- Claim C6, witness: with a memoized success result, `getValidationState`
returns it with a zero trace, while `parse` still validates once. -/
theorem C6_memoization_witness :
    getValidationState cfgEmptySchema ⟨[], some ⟨true, none⟩⟩
      = (⟨true, none⟩, ⟨[], some ⟨true, none⟩⟩, ⟨0, 0, []⟩) ∧
    (parse cfgEmptySchema ⟨[], some ⟨true, none⟩⟩).2.2.validationRuns = 1 := by
  have h := C6_memoization cfgEmptySchema ⟨[], some ⟨true, none⟩⟩ []
  exact ⟨h.1 _ rfl, h.2.2 _ rfl (by decide)⟩

/-- Claim C7 (confirmed): the collected ambient map obeys the documented
increasing precedence process.env < import.meta.env < Deno.env < ENV: a key
defined by a source and by no source of higher precedence collects to that
source value, overriding any lower-precedence definition. -/
theorem C7_source_precedence (a : Ambient) (k : String) (v : Val) :
    (srcLookup a.globalENV k = some v →
      lookupEnv (detectRuntimeEnv a) k = some v) ∧
    (srcLookup a.globalENV k = none → srcLookup a.denoEnv k = some v →
      lookupEnv (detectRuntimeEnv a) k = some v) ∧
    (srcLookup a.globalENV k = none → srcLookup a.denoEnv k = none →
      srcLookup a.importMetaEnv k = some v →
      lookupEnv (detectRuntimeEnv a) k = some v) ∧
    (srcLookup a.globalENV k = none → srcLookup a.denoEnv k = none →
      srcLookup a.importMetaEnv k = none → srcLookup a.processEnv k = some v →
      lookupEnv (detectRuntimeEnv a) k = some v) := by
  have hd := lookupEnv_detectRuntimeEnv a k
  refine ⟨?_, ?_, ?_, ?_⟩
  · intro h1
    rw [hd, h1]; rfl
  · intro h1 h2
    rw [hd, h1, h2]; rfl
  · intro h1 h2 h3
    rw [hd, h1, h2, h3]; rfl
  · intro h1 h2 h3 h4
    rw [hd, h1, h2, h3, h4]; rfl

/-- Claim C7, witness: `K` defined by both process.env and Deno.env collects
to the Deno value. -/
theorem C7_source_precedence_witness :
    lookupEnv (detectRuntimeEnv ambientPD) "K" = some (.str "d") :=
  (C7_source_precedence ambientPD "K" (.str "d")).2.1 rfl rfl

/-- Claim C8 (confirmed): when the current context is not in the allowed
list, `parse` throws the environment-policy error with no transformation run,
no validation run and no invocation of the validation-error handler, leaving
the state untouched.  The thrown value is a plain `Error` built by `parse`
itself, not something routed through `onValidationError`. -/
theorem C8_policy_rejection (cfg : Cfg) (st : VState)
    (h : cfg.currentEnv ∉ cfg.allowedEnvironments) :
    parse cfg st
      = (.error (.error (policyErrorMsg cfg.currentEnv cfg.allowedEnvironments)),
         st, ⟨0, 0, []⟩) := by
  have hc := contains_currentEnv_of_not_mem cfg h
  simp only [parse, hc, Bool.not_false, eq_self_iff_true, if_true]

/-- Claim C8, witness: browser context with only `node` allowed is rejected
with the policy error and an all-zero trace. -/
theorem C8_policy_rejection_witness :
    parse cfgPolicy emptyState
      = (.error (.error (policyErrorMsg .browser [.node])), emptyState, ⟨0, 0, []⟩) :=
  C8_policy_rejection cfgPolicy emptyState (by decide)

/-- Claim C9 (confirmed): `getValidationState` is a total function returning
a `ValidationResult` (the embedded `try/catch` consumes every thrown value,
so it never raises); with a memoized result it returns it with no validation
attempt; with no memoized result it drives exactly the one `parse` attempt
(same trace); every thrown value of that attempt is captured into a
`success := false` record with a non-empty error list and memoized, and a
repeated call then returns the same memoized report with no further
validation. -/
theorem C9_validation_state (cfg : Cfg) (st : VState) :
    (∀ r, st.validationResult = some r →
      getValidationState cfg st = (r, st, ⟨0, 0, []⟩)) ∧
    (st.validationResult = none →
      (getValidationState cfg st).2.2 = (parse cfg st).2.2) ∧
    (st.validationResult = none → ∀ t st1 tr, parse cfg st = (.error t, st1, tr) →
      getValidationState cfg st
        = (captureError t, { st1 with validationResult := some (captureError t) }, tr) ∧
      (captureError t).success = false ∧
      (captureError t).errors ≠ none ∧
      getValidationState cfg { st1 with validationResult := some (captureError t) }
        = (captureError t,
           { st1 with validationResult := some (captureError t) }, ⟨0, 0, []⟩)) := by
  refine ⟨?_, ?_, ?_⟩
  · intro r hr
    simp [getValidationState, hr]
  · intro hn
    simp only [getValidationState, hn]
    cases hp : (parse cfg st).1 <;> rfl
  · intro hn t st1 tr hp
    have hp1 : (parse cfg st).1 = .error t := by rw [hp]
    have hp2 : (parse cfg st).2.1 = st1 := by rw [hp]
    have hp3 : (parse cfg st).2.2 = tr := by rw [hp]
    refine ⟨?_, ?_, ?_, ?_⟩
    · simp only [getValidationState, hn, hp1, hp2, hp3]
    · cases t <;> rfl
    · cases t <;> simp [captureError]
    · simp [getValidationState]

/-- Claim C9, witness: a failing validation with the default raising handler
is captured into a memoized failure report, and the repeated call returns the
same report with a zero trace. -/
theorem C9_validation_state_witness :
    getValidationState cfgValFailRaise emptyState
      = (⟨false, some [⟨[], "Environment validation failed."⟩]⟩,
         ⟨[], some ⟨false, some [⟨[], "Environment validation failed."⟩]⟩⟩,
         ⟨1, 1, [[⟨["MISSING_VAR"], "Required"⟩]]⟩) ∧
    getValidationState cfgValFailRaise
        ⟨[], some ⟨false, some [⟨[], "Environment validation failed."⟩]⟩⟩
      = (⟨false, some [⟨[], "Environment validation failed."⟩]⟩,
         ⟨[], some ⟨false, some [⟨[], "Environment validation failed."⟩]⟩⟩,
         ⟨0, 0, []⟩) := by
  have h := (C9_validation_state cfgValFailRaise emptyState).2.2 rfl
    (.error "Environment validation failed.") emptyState
    ⟨1, 1, [[⟨["MISSING_VAR"], "Required"⟩]]⟩ rfl
  exact ⟨h.1, h.2.2.2⟩

/-- Claim C10 (confirmed): `setRuntimeEnv` stores the transformed image of
the supplied map, and `parse` transforms the stored map again; hence a field
with a registered transformer (whose raw value and once-transformed value are
not the empty string) reaches validation as the transformer applied twice to
the supplied raw value. -/
theorem C10_double_transform (cfg : Cfg) (st : VState) (env : EnvMap)
    (k : String) (f : Transformer) (v : Val)
    (hf : lookupTransformer cfg k = some f)
    (hv : lookupEnv env k = some v)
    (hv1 : v ≠ .str "") (hv2 : f v k ≠ .str "") :
    (setRuntimeEnv cfg st env).1.runtimeEnv = transformEnv cfg env ∧
    lookupEnv (transformEnv cfg (setRuntimeEnv cfg st env).1.runtimeEnv) k
      = some (f (f v k) k) := by
  refine ⟨rfl, ?_⟩
  have h1 : lookupEnv (transformEnv cfg env) k = some (f v k) :=
    lookupEnv_transformEnv_of cfg env k f v hf hv hv1
  exact lookupEnv_transformEnv_of cfg (transformEnv cfg env) k f (f v k) hf h1 hv2

/-- Claim C10, witness: the transformer prepending `X`, registered for `K`,
applied to raw value `"a"` through `setRuntimeEnv` followed by the transform
step of `parse`, yields `"XXa"`. -/
theorem C10_double_transform_witness :
    lookupEnv (transformEnv cfgTransform
      (setRuntimeEnv cfgTransform emptyState [("K", .str "a")]).1.runtimeEnv) "K"
      = some (.str "XXa") := by
  have h := C10_double_transform cfgTransform emptyState [("K", .str "a")] "K"
    prependX (.str "a") rfl rfl (by decide) (by decide)
  exact h.2

end EnvValidator
